import Mathlib

/-!
Shallow embedding of the ingress-to-storage pipeline of the nats-requeue
repository: the queue-key scheme (internal/queue/key.go), the ingress worker
path and its commit callback (requeue.go), the badger initialization
(requeue.go), the directory lock guard (internal/badger/dir_unix.go), and the
envelope retries mutation (flatbuf schema protocol/requeue_msg.fbs plus its
round-trip test).

Byte strings are modelled as `List Nat` with each element a byte value.
-/

/-- Byte value of the key separator "." (key.go: `sep = "."`). -/
def sepByte : Nat := 46

/-- Bytes of the constant namespace "_q" (key.go: `QueuesNamespace`). -/
def QueuesNamespace : List Nat := [95, 113]

/-- Bytes of the messages bucket "_m" (key.go: `MessagesBucket`). -/
def MessagesBucket : List Nat := [95, 109]

/-- Bytes of the state bucket "_s" (key.go: `StateBucket`). -/
def StateBucket : List Nat := [95, 115]

/-- Bytes of the property name "checkpoint" (key.go: `CheckpointProperty`). -/
def CheckpointProperty : List Nat := [99, 104, 101, 99, 107, 112, 111, 105, 110, 116]

/-- Modelled from the spec: the `internal/key` package is not under src/.
The spec says the sortable identifier is a 20-byte value, so `key.Size = 20`. -/
def keySize : Nat := 20

/-- Modelled from the spec: `key.Min` is the all-zero-bytes sentinel. -/
def keyMin : List Nat := List.replicate keySize 0

/-- Modelled from the spec: `key.Max` is the all-one-bits sentinel (each byte 255). -/
def keyMax : List Nat := List.replicate keySize 255

/-- QueueKey mirrors the Go struct in key.go. Go's `Key key.Key` is a byte
slice that may be nil, modelled as `Option (List Nat)` (none = nil). The Go
zero value of `Property` is the empty string, modelled as `[]`. -/
structure QueueKey where
  Namespace : List Nat
  Bucket : List Nat
  Name : List Nat
  Property : List Nat
  Key : Option (List Nat)
deriving DecidableEq

/-- key.go `NewQueueKeyForMessage`: namespace `_q`, bucket `_m`, given queue
name and identifier; `Property` is left at its zero value. -/
def NewQueueKeyForMessage (queue k : List Nat) : QueueKey :=
  { Namespace := QueuesNamespace, Bucket := MessagesBucket, Name := queue
    Property := [], Key := some k }

/-- key.go `NewQueueKeyForState`: namespace `_q`, bucket `_s`, given queue
name and property; `Key` is left nil. -/
def NewQueueKeyForState (queue property : List Nat) : QueueKey :=
  { Namespace := QueuesNamespace, Bucket := StateBucket, Name := queue
    Property := property, Key := none }

/-- key.go `QueueKey.IsKey`: true when the Key slice is non-nil. -/
def QueueKey.IsKey (q : QueueKey) : Bool := q.Key.isSome

/-- key.go `QueueKey.Bytes`: concatenate namespace, bucket, name and the
payload (the Key when non-nil, otherwise the Property), separated by ".". -/
def QueueKey.Bytes (q : QueueKey) : List Nat :=
  q.Namespace ++ sepByte :: q.Bucket ++ sepByte :: q.Name ++ sepByte ::
    (match q.Key with
     | some k => k
     | none => q.Property)

/-- Go `bytes.Split(k, ".")` for the single-byte separator: split around each
occurrence of the separator byte; splitting the empty slice yields one empty
segment. -/
def splitSep : List Nat → List (List Nat)
  | [] => [[]]
  | b :: rest =>
    let s := splitSep rest
    if b = sepByte then [] :: s
    else (b :: s.headD []) :: s.tail

/-- key.go `ParseQueueKey`. Modelled from the spec for the assertion part:
`debug.Assert` (internal/debug, not under src/) makes parse "fail loudly",
modelled as returning `none`. The code asserts that the split has exactly
four segments and that the fourth segment has length `key.Size`
(unconditionally, for every key), then returns the four segments with the
fourth as the Key slice. -/
def ParseQueueKey (k : List Nat) : Option QueueKey :=
  let spl := splitSep k
  if (splitSep k).length = 4 ∧ ((splitSep k).getD 3 []).length = keySize then
    some { Namespace := spl.getD 0 [], Bucket := spl.getD 1 [], Name := spl.getD 2 []
           Property := [], Key := some (spl.getD 3 []) }
  else none

/-- key.go `FirstMessage`: the smallest possible message key for a queue. -/
def FirstMessage (queue : List Nat) : QueueKey := NewQueueKeyForMessage queue keyMin

/-- key.go `LastMessage`: the largest possible message key for a queue. -/
def LastMessage (queue : List Nat) : QueueKey := NewQueueKeyForMessage queue keyMax

/-- Strict lexicographic order on byte strings, as Go compares KV-store keys:
a proper initial segment is smaller; otherwise the first differing byte decides. -/
def lexLt : List Nat → List Nat → Bool
  | [], [] => false
  | [], _ :: _ => true
  | _ :: _, [] => false
  | a :: as, b :: bs => if a < b then true else if a = b then lexLt as bs else false

-- Helper lemmas about splitSep.

/-- splitSep never returns the empty list of segments. -/
theorem splitSep_ne_nil (k : List Nat) : splitSep k ≠ [] := by
  cases k with
  | nil => simp [splitSep]
  | cons b rest =>
    by_cases hb : b = sepByte <;> simp [splitSep, hb]

/-- Splitting a separator-free byte string yields that single segment. -/
theorem splitSep_sepFree (k : List Nat) (h : sepByte ∉ k) : splitSep k = [k] := by
  induction k with
  | nil => rfl
  | cons b rest ih =>
    have hb : b ≠ sepByte := fun hbe => h (hbe ▸ List.mem_cons_self b rest)
    have hrest : sepByte ∉ rest := fun hm => h (List.mem_cons_of_mem b hm)
    simp [splitSep, hb, ih hrest]

/-- Splitting a string that starts with a separator-free segment followed by a
separator gives that segment and then the split of the remainder. -/
theorem splitSep_append (a rest : List Nat) (ha : sepByte ∉ a) :
    splitSep (a ++ sepByte :: rest) = a :: splitSep rest := by
  induction a with
  | nil => simp [splitSep]
  | cons b t ih =>
    have hb : b ≠ sepByte := fun hbe => ha (hbe ▸ List.mem_cons_self b t)
    have ht : sepByte ∉ t := fun hm => ha (List.mem_cons_of_mem b hm)
    simp [splitSep, hb, ih ht]

/-- Joining segments back with the separator byte. -/
def joinSep : List (List Nat) → List Nat
  | [] => []
  | [a] => a
  | a :: b :: t => a ++ sepByte :: joinSep (b :: t)

/-- joinSep undoes splitSep. -/
theorem joinSep_splitSep (k : List Nat) : joinSep (splitSep k) = k := by
  induction k with
  | nil => rfl
  | cons b rest ih =>
    by_cases hb : b = sepByte
    · cases h : splitSep rest with
      | nil => exact absurd h (splitSep_ne_nil rest)
      | cons x t =>
        have hs : splitSep (b :: rest) = [] :: x :: t := by simp [splitSep, hb, h]
        rw [hs]
        have hjo : joinSep ([] :: x :: t) = sepByte :: joinSep (x :: t) := rfl
        rw [hjo, ← h, ih, hb]
    · cases h : splitSep rest with
      | nil => exact absurd h (splitSep_ne_nil rest)
      | cons x t =>
        have hs : splitSep (b :: rest) = (b :: x) :: t := by simp [splitSep, hb, h]
        rw [hs]
        cases t with
        | nil =>
          have hx : joinSep [b :: x] = b :: x := rfl
          rw [hx]
          have hih := ih
          rw [h] at hih
          have hj : joinSep [x] = x := rfl
          rw [hj] at hih
          rw [hih]
        | cons y t2 =>
          have hx : joinSep ((b :: x) :: y :: t2) = (b :: x) ++ sepByte :: joinSep (y :: t2) := rfl
          rw [hx]
          have hih := ih
          rw [h] at hih
          have hj : joinSep (x :: y :: t2) = x ++ sepByte :: joinSep (y :: t2) := rfl
          rw [hj] at hih
          simp only [List.cons_append]
          rw [hih]

/-- No segment produced by splitSep contains the separator byte. -/
theorem splitSep_not_mem (k : List Nat) (p : List Nat) (hp : p ∈ splitSep k) :
    sepByte ∉ p := by
  induction k generalizing p with
  | nil =>
    simp [splitSep] at hp
    simp [hp]
  | cons b rest ih =>
    by_cases hb : b = sepByte
    · have hs : splitSep (b :: rest) = [] :: splitSep rest := by simp [splitSep, hb]
      rw [hs] at hp
      rcases List.mem_cons.mp hp with hp | hp
      · simp [hp]
      · exact ih p hp
    · cases h : splitSep rest with
      | nil => exact absurd h (splitSep_ne_nil rest)
      | cons x t =>
        have hs : splitSep (b :: rest) = (b :: x) :: t := by simp [splitSep, hb, h]
        rw [hs] at hp
        rcases List.mem_cons.mp hp with hp | hp
        · subst hp
          intro hmem
          rcases List.mem_cons.mp hmem with h1 | h1
          · exact hb h1.symm
          · exact ih x (h ▸ List.mem_cons_self x t) h1
        · exact ih p (h ▸ List.mem_cons_of_mem x hp)

-- Lexicographic-order lemmas used for the message-key range bounds.

/-- Unfolding lexLt on two cons cells. -/
theorem lexLt_cons (a b : Nat) (x y : List Nat) :
    lexLt (a :: x) (b :: y) = if a < b then true else if a = b then lexLt x y else false := rfl

/-- A shared prefix does not affect the lexicographic comparison. -/
theorem lexLt_append_same (p x y : List Nat) : lexLt (p ++ x) (p ++ y) = lexLt x y := by
  induction p with
  | nil => rfl
  | cons a t ih =>
    simp only [List.cons_append, lexLt_cons, Nat.lt_irrefl, if_false, if_pos rfl, ih, if_true]

/-- The all-zero byte string of the right length is lexicographically below
every other byte string of that length. -/
theorem lexLt_replicate_zero (k : List Nat) (n : Nat) (hlen : k.length = n)
    (hne : k ≠ List.replicate n 0) : lexLt (List.replicate n 0) k = true := by
  induction k generalizing n with
  | nil =>
    subst hlen
    simp at hne
  | cons a as ih =>
    subst hlen
    rw [List.length_cons, List.replicate_succ, lexLt_cons]
    rcases Nat.eq_zero_or_pos a with ha | ha
    · subst ha
      have has : as ≠ List.replicate as.length 0 := by
        intro h
        exact hne (by rw [List.length_cons, List.replicate_succ, ← h])
      simp [ih as.length rfl has]
    · simp [ha]

/-- Every byte string of the right length other than the all-255 string is
lexicographically below the all-255 string. -/
theorem lexLt_replicate_max (k : List Nat) (n : Nat) (hlen : k.length = n)
    (hwf : ∀ b ∈ k, b < 256) (hne : k ≠ List.replicate n 255) :
    lexLt k (List.replicate n 255) = true := by
  induction k generalizing n with
  | nil =>
    subst hlen
    simp at hne
  | cons a as ih =>
    subst hlen
    rw [List.length_cons, List.replicate_succ, lexLt_cons]
    have ha : a < 256 := hwf a (List.mem_cons_self a as)
    rcases Nat.lt_or_ge a 255 with h255 | h255
    · simp [h255]
    · have haeq : a = 255 := Nat.le_antisymm (Nat.lt_succ_iff.mp ha) h255
      subst haeq
      have has : as ≠ List.replicate as.length 255 := by
        intro h
        exact hne (by rw [List.length_cons, List.replicate_succ, ← h])
      have hwfas : ∀ b ∈ as, b < 256 := fun b hb => hwf b (List.mem_cons_of_mem _ hb)
      simp [ih as.length rfl hwfas has]

/-- The serialized prefix shared by every message key of a queue:
namespace, messages bucket and queue name, each followed by a separator. -/
def msgKeyPre (queue : List Nat) : List Nat :=
  QueuesNamespace ++ sepByte :: MessagesBucket ++ sepByte :: queue ++ [sepByte]

/-- A message key serializes to the queue's shared prefix followed by the
identifier bytes. -/
theorem Bytes_message (queue k : List Nat) :
    (NewQueueKeyForMessage queue k).Bytes = msgKeyPre queue ++ k := by
  simp [QueueKey.Bytes, NewQueueKeyForMessage, msgKeyPre]

/-!
Ingress worker path (requeue.go).
-/

/-- Observable effects of the batched-writer commit callback built by
requeue.go `processIngressMessageCallback(msg)`. The closure receives the
commit error; it logs the error when non-nil, logs the commit, and calls
`msg.Respond(nil)` (the empty-body acknowledgement). It never touches the
`BadgerWriteMsgErr` hook. -/
structure CallbackEffects where
  loggedCommitError : Bool
  respondedEmpty : Bool
  hookInvoked : Bool
deriving DecidableEq

/-- requeue.go `processIngressMessageCallback`: the returned closure, as a
function of the commit error it is invoked with. `if err != nil` only logs;
the `msg.Respond(nil)` call is unconditional; the write-error hook does not
appear in the closure body. -/
def processIngressMessageCallback (commitErr : Option (List Nat)) : CallbackEffects :=
  { loggedCommitError := commitErr.isSome
    respondedEmpty := true
    hookInvoked := false }

/-- The key built by requeue.go `processIngressMessage`:
`fmt.Sprintf("%s.%s", originalSubject, ksuid.New().String())`, i.e. the
envelope's original subject, a "." and the freshly generated ksuid string. -/
def buildIngressKey (originalSubject ksuidStr : List Nat) : List Nat :=
  originalSubject ++ sepByte :: ksuidStr

/-- Observable effects of requeue.go `processIngressMessage`: the key and
value passed to `wb.Set`, and whether the configured write-error hook was
invoked (it is, only when `Set` itself returns a non-nil error and the hook
is configured). -/
structure IngressEffects where
  setKey : List Nat
  setValue : List Nat
  hookInvoked : Bool
deriving DecidableEq

/-- requeue.go `processIngressMessage`, with the message's data and original
subject, the fresh ksuid string, and the synchronous result of `wb.Set` as
inputs. The value written is `msg.Data` verbatim. -/
def processIngressMessage (msgData originalSubject ksuidStr : List Nat)
    (setErr : Option (List Nat)) (hookConfigured : Bool) : IngressEffects :=
  { setKey := buildIngressKey originalSubject ksuidStr
    setValue := msgData
    hookInvoked := setErr.isSome && hookConfigured }

/-!
Badger initialization and Connect (requeue.go).
-/

/-- requeue.go `Conn.initBadger`, as a function of the outcome of
`badger.Open` (a DB handle, abstracted to a Nat id, or an error). The code is
`db, err := badger.Open(...); if err != nil { log... }; c.badgerDB = db; ...;
return nil`: the open error is only logged, `badgerDB` is assigned the (nil on
failure) handle, and the function returns nil unconditionally. The result is
(returned error, resulting badgerDB handle). -/
def initBadger (openResult : Except (List Nat) Nat) : Option (List Nat) × Option Nat :=
  (none,
   match openResult with
   | .ok db => some db
   | .error _ => none)

/-- requeue.go `Options.Connect`, restricted to the storage-init step: it
aborts construction (returns the error) exactly when `initBadger` returns a
non-nil error; otherwise it hands out the Conn with whatever `badgerDB`
handle initBadger left behind. `none` = construction aborted, `some db` = a
Conn with storage handle `db` is handed to the worker pool. -/
def connectStorageOutcome (openResult : Except (List Nat) Nat) : Option (Option Nat) :=
  match initBadger openResult with
  | (some _, _) => none
  | (none, db) => some db

/-!
Directory lock guard (internal/badger/dir_unix.go), as a straight-line trace
of operations on the data directory.
-/

/-- Primitive effects of AcquireDirectoryLock / Release on the directory. -/
inductive DirOp where
  | openDir
  | flockAcquired
  | writePid
  | removePid
  | closeHandle
deriving DecidableEq

/-- State of the data directory: the pid recorded in the pid file (none = no
pid file), the process holding the advisory flock, and the number of open
handles on the directory held by this process. -/
structure DirState where
  pidFile : Option Nat
  lockHolder : Option Nat
  openHandles : Nat
deriving DecidableEq

/-- Effect of one directory operation performed by process `me`. Closing the
flocked handle releases the advisory lock if this process held it. -/
def applyDirOp (me : Nat) (s : DirState) : DirOp → DirState
  | .openDir => { s with openHandles := s.openHandles + 1 }
  | .flockAcquired => { s with lockHolder := some me }
  | .writePid => { s with pidFile := some me }
  | .removePid => { s with pidFile := none }
  | .closeHandle =>
    { s with openHandles := s.openHandles - 1
             lockHolder := if s.lockHolder = some me then none else s.lockHolder }

/-- Apply a trace of directory operations in order. -/
def applyDirOps (me : Nat) (s : DirState) : List DirOp → DirState
  | [] => s
  | op :: t => applyDirOps me (applyDirOp me s op) t

/-- dir_unix.go `AcquireDirectoryLock`, as the trace of directory operations
it performs and whether it returns a guard (true) or an error (false). The
booleans are the outcomes of the fallible system calls: `os.Open`, the
non-blocking flock, and `ioutil.WriteFile` of the pid file. On flock failure
the code closes the handle it opened and returns the error without touching
any pid file. On success in read-write mode it unconditionally overwrites the
pid file; in read-only mode it writes no pid file. A failed pid-file write
closes the handle and returns the error (partial writes are not modelled). -/
def AcquireDirectoryLock (readOnly openOk flockOk writeOk : Bool) : List DirOp × Bool :=
  if !openOk then ([], false)
  else if !flockOk then ([.openDir, .closeHandle], false)
  else if readOnly then ([.openDir, .flockAcquired], true)
  else if writeOk then ([.openDir, .flockAcquired, .writePid], true)
  else ([.openDir, .flockAcquired, .writePid, .closeHandle], false)

/-- dir_unix.go `DirectoryLockGuard.Release`: in read-write mode remove the
pid file first, then close the flocked handle; in read-only mode just close. -/
def releaseOps (readOnly : Bool) : List DirOp :=
  if readOnly then [.closeHandle] else [.removePid, .closeHandle]

/-!
Requeue envelope retries slot. Modelled from the spec: the flatbuf generated
accessors (`flatbuf` package) are not under src/; the schema
protocol/requeue_msg.fbs declares `retries: uint64 = 0` and the spec says
MutateRetries overwrites the field in place and fails exactly when the buffer
was not built with space for the field, with a fresh view of the same buffer
reading the new value.
-/

/-- Little-endian encoding of `n` into `w` bytes. -/
def leBytes : Nat → Nat → List Nat
  | 0, _ => []
  | w + 1, n => (n % 256) :: leBytes w (n / 256)

/-- Little-endian decoding of a byte string. -/
def leDecode : List Nat → Nat
  | [] => 0
  | b :: bs => b + 256 * leDecode bs

/-- Modelled from the spec: a built requeue-message buffer, split into the
8-byte little-endian slot for `retries` (present only when the builder stored
the field) and the remaining buffer bytes. -/
structure RequeueMessageBuf where
  retriesSlot : Option (List Nat)
  rest : List Nat
deriving DecidableEq

/-- Total size in bytes of the buffer. -/
def RequeueMessageBuf.size (b : RequeueMessageBuf) : Nat :=
  (match b.retriesSlot with
   | some s => s.length
   | none => 0) + b.rest.length

/-- Modelled from the spec: reading `retries` through a fresh view of the
buffer; a missing slot reads the schema default 0. -/
def viewRetries (b : RequeueMessageBuf) : Nat :=
  match b.retriesSlot with
  | some s => leDecode s
  | none => 0

/-- Modelled from the spec: `MutateRetries` overwrites the 8-byte slot in
place with the new uint64 value and reports failure (none) exactly when the
buffer was not built with space for the field. -/
def MutateRetries (b : RequeueMessageBuf) (n : Nat) : Option RequeueMessageBuf :=
  match b.retriesSlot with
  | some _ => some { b with retriesSlot := some (leBytes 8 (n % 2 ^ 64)) }
  | none => none

/-- leBytes always produces exactly `w` bytes. -/
theorem leBytes_length (w n : Nat) : (leBytes w n).length = w := by
  induction w generalizing n with
  | zero => rfl
  | succ w ih => simp [leBytes, ih]

/-- Decoding the `w`-byte little-endian encoding recovers `n % 256 ^ w`. -/
theorem leDecode_leBytes (w n : Nat) : leDecode (leBytes w n) = n % 256 ^ w := by
  induction w generalizing n with
  | zero => simp [leBytes, leDecode, Nat.mod_one]
  | succ w ih =>
    rw [leBytes, leDecode, ih, pow_succ, mul_comm (256 ^ w) 256, Nat.mod_mul]

/-!
Claim theorems.
-/

/-- C1 counterexample: invoked with a non-nil commit error, the batched-writer
commit callback still sends the empty reply and does not invoke the
operator-supplied write-error hook, contradicting the claim that the reply is
withheld and the hook invoked on failure. -/
theorem c1_counterexample :
    (processIngressMessageCallback (some [98, 111, 111, 109])).respondedEmpty = true ∧
    (processIngressMessageCallback (some [98, 111, 111, 109])).hookInvoked = false :=
  ⟨rfl, rfl⟩

/-- C1 (amended): for every commit outcome, nil or not, the commit callback
sends the empty reply to the message's reply address and never invokes the
write-error hook; a non-nil error is only logged. -/
theorem c1_callback_always_acks (commitErr : Option (List Nat)) :
    (processIngressMessageCallback commitErr).respondedEmpty = true ∧
    (processIngressMessageCallback commitErr).hookInvoked = false ∧
    (processIngressMessageCallback commitErr).loggedCommitError = commitErr.isSome :=
  ⟨rfl, rfl, rfl⟩

/-- C2: when `badger.Open` fails, `initBadger` returns no error (the open
error is only logged) and `Options.Connect` hands out a Conn whose storage
handle is nil, contradicting the claim that construction fails; the dead
`if err != nil` check at the `initBadger` call site in Connect shows the
intent was to propagate the error. -/
theorem c2_initBadger_swallows_open_error (e : List Nat) :
    (initBadger (Except.error e)).1 = none ∧
    (initBadger (Except.error e)).2 = none ∧
    connectStorageOutcome (Except.error e) = some none :=
  ⟨rfl, rfl, rfl⟩

/-- C3 counterexample: for the ingress message with original subject "foo"
and a concrete fresh ksuid string, the key passed to the batched writer does
not equal `NewQueueKeyForMessage("default", id).Bytes()` for any identifier
id: the stored key starts with the subject byte 'f', a queue-scheme key with
the namespace byte '_'. -/
theorem c3_counterexample :
    ¬ ∃ id : List Nat,
      (processIngressMessage [1, 2, 3] [102, 111, 111] (List.replicate 27 48) none true).setKey
        = (NewQueueKeyForMessage [100, 101, 102, 97, 117, 108, 116] id).Bytes := by
  rintro ⟨id, h⟩
  have h2 := congrArg List.head? h
  simp [processIngressMessage, buildIngressKey, QueueKey.Bytes, NewQueueKeyForMessage,
    QueuesNamespace, sepByte] at h2

/-- C3 (amended): for every message accepted from the bus, the ingress worker
stores the verbatim envelope bytes, but under a two-segment key formed from
the envelope's original subject, a "." and the string form of a freshly
generated ksuid; the `_q._m.default.` queue-key scheme is not used at
ingress. -/
theorem c3_ingress_key_and_value (msgData subj kid : List Nat)
    (setErr : Option (List Nat)) (hook : Bool) :
    (processIngressMessage msgData subj kid setErr hook).setValue = msgData ∧
    (processIngressMessage msgData subj kid setErr hook).setKey = subj ++ sepByte :: kid :=
  ⟨rfl, rfl⟩

/-- C8: releasing a read-write directory-lock guard removes the pid file
first and closes the flocked handle second; afterwards the directory has no
pid file and this process no longer holds the advisory lock, from any prior
directory state. -/
theorem c8_release_removes_pid_then_closes :
    releaseOps false = [DirOp.removePid, DirOp.closeHandle] ∧
    ∀ (me : Nat) (s : DirState),
      (applyDirOps me s (releaseOps false)).pidFile = none ∧
      (applyDirOps me s (releaseOps false)).lockHolder ≠ some me := by
  refine ⟨rfl, fun me s => ⟨rfl, ?_⟩⟩
  show (if s.lockHolder = some me then none else s.lockHolder) ≠ some me
  by_cases h : s.lockHolder = some me <;> simp [h]

/-- C9: when the non-blocking flock cannot be acquired, AcquireDirectoryLock
returns an error, performs no pid-file operation, closes the directory handle
it opened, and leaves the directory state exactly as it found it (given that
this process did not already hold the lock). -/
theorem c9_acquire_flock_failure (readOnly writeOk : Bool) (me : Nat) (s : DirState)
    (h : s.lockHolder ≠ some me) :
    AcquireDirectoryLock readOnly true false writeOk
      = ([DirOp.openDir, DirOp.closeHandle], false) ∧
    DirOp.writePid ∉ (AcquireDirectoryLock readOnly true false writeOk).1 ∧
    DirOp.removePid ∉ (AcquireDirectoryLock readOnly true false writeOk).1 ∧
    applyDirOps me s (AcquireDirectoryLock readOnly true false writeOk).1 = s := by
  have he : AcquireDirectoryLock readOnly true false writeOk
      = ([DirOp.openDir, DirOp.closeHandle], false) := rfl
  refine ⟨he, ?_, ?_, ?_⟩
  · rw [he]; decide
  · rw [he]; decide
  · rw [he]
    show applyDirOps me s [DirOp.openDir, DirOp.closeHandle] = s
    simp only [applyDirOps, applyDirOp, h, if_neg]
    simp [h]

/-- C9 witness: a concrete directory state owned by process 1, with process 2
attempting acquisition. -/
theorem c9_witness :
    (⟨some 1, some 1, 0⟩ : DirState).lockHolder ≠ some 2 ∧
    (AcquireDirectoryLock false true false true
        = ([DirOp.openDir, DirOp.closeHandle], false) ∧
      DirOp.writePid ∉ (AcquireDirectoryLock false true false true).1 ∧
      DirOp.removePid ∉ (AcquireDirectoryLock false true false true).1 ∧
      applyDirOps 2 ⟨some 1, some 1, 0⟩ (AcquireDirectoryLock false true false true).1
        = ⟨some 1, some 1, 0⟩) :=
  ⟨by decide, c9_acquire_flock_failure false true 2 ⟨some 1, some 1, 0⟩ (by decide)⟩

/-- C10: a successful read-write acquisition unconditionally writes this
process's pid to the pid file, whatever pid file the directory held before
(the trace and the success flag do not depend on the prior state, so a stale
pid file never prevents acquisition), and ends holding the advisory lock. -/
theorem c10_acquire_overwrites_stale_pid (me : Nat) (s : DirState) :
    (AcquireDirectoryLock false true true true).2 = true ∧
    (applyDirOps me s (AcquireDirectoryLock false true true true).1).pidFile = some me ∧
    (applyDirOps me s (AcquireDirectoryLock false true true true).1).lockHolder = some me :=
  ⟨rfl, rfl, rfl⟩

/-- C4 counterexample: for queue "q" and the 20-byte identifier whose first
byte is the separator byte 46, parsing the serialized message key does not
round-trip: the identifier's separator byte makes the split produce five
segments, so the parse assertions fail. -/
theorem c4_counterexample :
    ¬ (ParseQueueKey (NewQueueKeyForMessage [113] (46 :: List.replicate 19 0)).Bytes
        = some (NewQueueKeyForMessage [113] (46 :: List.replicate 19 0))) := by
  decide

/-- C4 (amended): parsing the serialized message key round-trips for every
queue name free of the separator byte and every identifier of the fixed
width that is free of the separator byte. -/
theorem c4_roundtrip (Q k : List Nat) (hq : sepByte ∉ Q) (hk : k.length = keySize)
    (hks : sepByte ∉ k) :
    ParseQueueKey (NewQueueKeyForMessage Q k).Bytes = some (NewQueueKeyForMessage Q k) := by
  have hns : sepByte ∉ QueuesNamespace := by decide
  have hbk : sepByte ∉ MessagesBucket := by decide
  have hbytes : (NewQueueKeyForMessage Q k).Bytes
      = QueuesNamespace ++ sepByte :: (MessagesBucket ++ sepByte :: (Q ++ sepByte :: k)) := by
    simp [QueueKey.Bytes, NewQueueKeyForMessage]
  have hsplit : splitSep (NewQueueKeyForMessage Q k).Bytes
      = [QueuesNamespace, MessagesBucket, Q, k] := by
    rw [hbytes, splitSep_append _ _ hns, splitSep_append _ _ hbk, splitSep_append _ _ hq,
      splitSep_sepFree k hks]
  simp only [ParseQueueKey, hsplit]
  simp [hk, NewQueueKeyForMessage]

/-- C4 witness: the round-trip at queue "q" and a concrete separator-free
20-byte identifier. -/
theorem c4_witness :
    sepByte ∉ ([113] : List Nat) ∧
    (1 :: List.replicate 19 0 : List Nat).length = keySize ∧
    sepByte ∉ (1 :: List.replicate 19 0 : List Nat) ∧
    ParseQueueKey (NewQueueKeyForMessage [113] (1 :: List.replicate 19 0)).Bytes
      = some (NewQueueKeyForMessage [113] (1 :: List.replicate 19 0)) :=
  ⟨by decide, by decide, by decide,
    c4_roundtrip [113] (1 :: List.replicate 19 0) (by decide) (by decide) (by decide)⟩

/-- C6: every message key for a well-formed 20-byte identifier other than the
two sentinels sorts strictly between the queue's FirstMessage key (built from
the all-zero sentinel) and LastMessage key (built from the all-255 sentinel)
in lexicographic byte order. -/
theorem c6_message_key_between (Q k : List Nat) (hlen : k.length = keySize)
    (hwf : ∀ b ∈ k, b < 256) (hmin : k ≠ keyMin) (hmax : k ≠ keyMax) :
    lexLt (FirstMessage Q).Bytes (NewQueueKeyForMessage Q k).Bytes = true ∧
    lexLt (NewQueueKeyForMessage Q k).Bytes (LastMessage Q).Bytes = true := by
  constructor
  · rw [FirstMessage, Bytes_message, Bytes_message, lexLt_append_same]
    exact lexLt_replicate_zero k keySize hlen hmin
  · rw [LastMessage, Bytes_message, Bytes_message, lexLt_append_same]
    exact lexLt_replicate_max k keySize hlen hwf hmax

/-- C6 witness: the ordering at queue "q" and a concrete identifier. -/
theorem c6_witness :
    (1 :: List.replicate 19 0 : List Nat).length = keySize ∧
    (∀ b ∈ (1 :: List.replicate 19 0 : List Nat), b < 256) ∧
    (1 :: List.replicate 19 0 : List Nat) ≠ keyMin ∧
    (1 :: List.replicate 19 0 : List Nat) ≠ keyMax ∧
    (lexLt (FirstMessage [113]).Bytes
        (NewQueueKeyForMessage [113] (1 :: List.replicate 19 0)).Bytes = true ∧
      lexLt (NewQueueKeyForMessage [113] (1 :: List.replicate 19 0)).Bytes
        (LastMessage [113]).Bytes = true) :=
  ⟨by decide, by decide, by decide, by decide,
    c6_message_key_between [113] (1 :: List.replicate 19 0)
      (by decide) (by decide) (by decide) (by decide)⟩

/-- C7 counterexample: the well-formed state key `_q._s.high.checkpoint`
does not parse: the code asserts the fourth segment has the fixed identifier
width for every key, and "checkpoint" has length 10, not 20. This contradicts
the claim that state keys parse without failure. -/
theorem c7_counterexample :
    ParseQueueKey (NewQueueKeyForState [104, 105, 103, 104] CheckpointProperty).Bytes
      = none := by
  decide

/-- C7 (amended): parsing succeeds exactly when the key decomposes into four
separator-free segments with the fourth of the fixed identifier width — the
width assertion applies to every key, message or state alike, so a state key
whose property segment is not 20 bytes long fails. -/
theorem c7_parse_ok_iff (k : List Nat) :
    (ParseQueueKey k).isSome = true ↔
      ∃ a b c d : List Nat, sepByte ∉ a ∧ sepByte ∉ b ∧ sepByte ∉ c ∧ sepByte ∉ d ∧
        d.length = keySize ∧ k = a ++ sepByte :: (b ++ sepByte :: (c ++ sepByte :: d)) := by
  constructor
  · intro h
    simp only [ParseQueueKey] at h
    by_cases hc : (splitSep k).length = 4 ∧ ((splitSep k).getD 3 []).length = keySize
    · obtain ⟨h4, hlen⟩ := hc
      cases hm0 : splitSep k with
      | nil => rw [hm0] at h4; simp at h4
      | cons a t =>
        rw [hm0] at h4
        simp only [List.length_cons] at h4
        have h3 : t.length = 3 := by omega
        obtain ⟨b, c, d, rfl⟩ := List.length_eq_three.mp h3
        refine ⟨a, b, c, d, ?_, ?_, ?_, ?_, ?_, ?_⟩
        · exact splitSep_not_mem k a (by rw [hm0]; simp)
        · exact splitSep_not_mem k b (by rw [hm0]; simp)
        · exact splitSep_not_mem k c (by rw [hm0]; simp)
        · exact splitSep_not_mem k d (by rw [hm0]; simp)
        · rw [hm0] at hlen
          simpa using hlen
        · have hj := joinSep_splitSep k
          rw [hm0] at hj
          have : joinSep [a, b, c, d]
              = a ++ sepByte :: (b ++ sepByte :: (c ++ sepByte :: d)) := rfl
          rw [this] at hj
          exact hj.symm
    · rw [if_neg hc] at h
      simp at h
  · rintro ⟨a, b, c, d, ha, hb, hc, hd, hlen, rfl⟩
    have hsplit : splitSep (a ++ sepByte :: (b ++ sepByte :: (c ++ sepByte :: d)))
        = [a, b, c, d] := by
      rw [splitSep_append _ _ ha, splitSep_append _ _ hb, splitSep_append _ _ hc,
        splitSep_sepFree d hd]
    simp [ParseQueueKey, hsplit, hlen]

/-- C5: for every buffer built with a stored 8-byte retries slot,
MutateRetries with a uint64 value succeeds, a fresh view of the mutated
buffer reads back exactly the new value, the buffer keeps its size and all
bytes outside the retries slot; and MutateRetries succeeds exactly when the
buffer was built with space for the retries field. -/
theorem c5_mutate_retries (b : RequeueMessageBuf) (n : Nat) :
    ((MutateRetries b n).isSome = true ↔ b.retriesSlot.isSome = true) ∧
    ∀ b2 slot, b.retriesSlot = some slot → slot.length = 8 → n < 2 ^ 64 →
      MutateRetries b n = some b2 →
      viewRetries b2 = n ∧ b2.rest = b.rest ∧ b2.size = b.size := by
  obtain ⟨slot0, rest0⟩ := b
  cases slot0 with
  | none =>
    refine ⟨by simp [MutateRetries], ?_⟩
    intro b2 slot hs
    exact absurd hs (by simp)
  | some s =>
    refine ⟨by simp [MutateRetries], ?_⟩
    intro b2 slot hs h8 hn hm
    have hslot : s = slot := by simpa using hs
    have hb2 : b2 = ⟨some (leBytes 8 (n % 2 ^ 64)), rest0⟩ := by
      simpa [MutateRetries] using hm.symm
    subst hb2
    have hpow : (256 : Nat) ^ 8 = 2 ^ 64 := by norm_num
    refine ⟨?_, rfl, ?_⟩
    · have hv : viewRetries ⟨some (leBytes 8 (n % 2 ^ 64)), rest0⟩
          = leDecode (leBytes 8 (n % 2 ^ 64)) := rfl
      rw [hv, leDecode_leBytes, hpow, Nat.mod_mod_of_dvd n (dvd_refl (2 ^ 64))]
      exact Nat.mod_eq_of_lt hn
    · have h1 : RequeueMessageBuf.size ⟨some (leBytes 8 (n % 2 ^ 64)), rest0⟩
          = (leBytes 8 (n % 2 ^ 64)).length + rest0.length := rfl
      have h2 : RequeueMessageBuf.size ⟨some s, rest0⟩ = s.length + rest0.length := rfl
      rw [h1, h2, leBytes_length, hslot, h8]

/-- C5 witness: the scenario of the repository's round-trip test, retries
built as 5 and mutated to 4 on a concrete buffer. -/
theorem c5_witness :
    (⟨some (leBytes 8 5), [1, 2, 3]⟩ : RequeueMessageBuf).retriesSlot = some (leBytes 8 5) ∧
    (leBytes 8 5).length = 8 ∧ (4 : Nat) < 2 ^ 64 ∧
    MutateRetries ⟨some (leBytes 8 5), [1, 2, 3]⟩ 4 = some ⟨some (leBytes 8 4), [1, 2, 3]⟩ ∧
    (viewRetries ⟨some (leBytes 8 4), [1, 2, 3]⟩ = 4 ∧
      (⟨some (leBytes 8 4), [1, 2, 3]⟩ : RequeueMessageBuf).rest
        = (⟨some (leBytes 8 5), [1, 2, 3]⟩ : RequeueMessageBuf).rest ∧
      (⟨some (leBytes 8 4), [1, 2, 3]⟩ : RequeueMessageBuf).size
        = (⟨some (leBytes 8 5), [1, 2, 3]⟩ : RequeueMessageBuf).size) :=
  ⟨rfl, by decide, by decide, by decide,
    (c5_mutate_retries ⟨some (leBytes 8 5), [1, 2, 3]⟩ 4).2
      ⟨some (leBytes 8 4), [1, 2, 3]⟩ (leBytes 8 5) rfl (by decide) (by decide) (by decide)⟩
